import Mathlib

set_option linter.unusedVariables false

/-! Shallow embedding of getopt_p.h, a single header POSIX getopt
implementation.  A C string is modelled as the list of characters stored
before the final NUL terminator; the argument vector is a list of possibly
null C strings; the globals optind, optopt, optarg together with the
static variable arg_idx of getopt form the scanner state.  A read that
would be out of bounds in C makes the model return none. -/

def NUL : Char := Char.ofNat 0

abbrev CStr := List Char

abbrev Argv := List (Option CStr)

/-- Read character j of the buffer of a C string s: the stored characters
followed by the NUL terminator; none past the terminator. -/
def cRead (s : CStr) (j : Nat) : Option Char :=
  (s ++ [NUL]).get? j

/-- Content of a C string buffer up to the first embedded NUL. -/
def cstr (s : CStr) : CStr :=
  s.takeWhile (fun ch => ch ≠ NUL)

/-- Index of the first occurrence of c in a C string, the terminator
included, as in strchr. -/
def strchrIdx : CStr → Char → Option Nat
  | [], c => if c = NUL then some 0 else none
  | x :: xs, c =>
      if x = c then some 0
      else if x = NUL then none
      else (strchrIdx xs c).map (fun k => k + 1)

/-- Scanner state: the globals optind, optopt, optarg and the static
variable arg_idx of getopt.  optarg is a pointer into argv, held as an
element index paired with a character offset; none is the null pointer. -/
structure GState where
  optind : Nat
  argIdx : Nat
  optopt : Char
  optarg : Option (Nat × Nat)
  deriving DecidableEq

/-- Initial values of the globals: optind 1, arg_idx 0, optopt the
character '?', optarg null. -/
def initState : GState :=
  { optind := 1, argIdx := 0, optopt := '?', optarg := none }

/-- Return value getopt_p_option_unknown, the code of '?'. -/
def optionUnknown : Int := Int.ofNat (Char.toNat '?')

/-- Return value getopt_p_option_missing, the code of ':'. -/
def optionMissing : Int := Int.ofNat (Char.toNat ':')

/-- Body of getopt from the read of argv[optind][arg_idx] on (lines
219 to 269 of getopt_p.h), entered with arg_idx already positioned on the
character to scan. -/
def scanBody (argv : Argv) (optStr : CStr) (st : GState) :
    Option (Int × GState) :=
  match argv.get? st.optind with
  | none => none
  | some none => none
  | some (some a) =>
    match cRead a st.argIdx with
    | none => none
    | some c =>
      let st1 : GState := { st with optopt := c }
      let cp := strchrIdx optStr c
      if c = ':' ∨ cp = none then
        match cRead a (st1.argIdx + 1) with
        | none => none
        | some ch =>
          if ch = NUL then
            some (optionUnknown,
              { st1 with optind := st1.optind + 1, argIdx := 0 })
          else
            some (optionUnknown, { st1 with argIdx := st1.argIdx + 1 })
      else
      match cp with
      | none => none
      | some k =>
        match cRead optStr (k + 1) with
        | none => none
        | some nc =>
          if nc = ':' then
            match cRead a (st1.argIdx + 1) with
            | none => none
            | some ch =>
              if ch ≠ NUL then
                some (Int.ofNat c.toNat,
                  { st1 with optarg := some (st1.optind, st1.argIdx + 1),
                             optind := st1.optind + 1, argIdx := 0 })
              else if st1.optind + 1 < argv.length then
                match argv.get? (st1.optind + 1) with
                | none => none
                | some nextEntry =>
                  some (Int.ofNat c.toNat,
                    { st1 with
                        optarg := nextEntry.map (fun _ => (st1.optind + 1, 0)),
                        optind := st1.optind + 2, argIdx := 0 })
              else
                some ((if cRead optStr 0 = some ':' then optionMissing
                       else optionUnknown),
                  { st1 with optind := st1.optind + 1, argIdx := 0 })
          else
            match cRead a (st1.argIdx + 1) with
            | none => none
            | some ch =>
              if ch = NUL then
                some (Int.ofNat c.toNat,
                  { st1 with optind := st1.optind + 1, argIdx := 0 })
              else
                some (Int.ofNat c.toNat, { st1 with argIdx := st1.argIdx + 1 })

/-- The getopt function of getopt_p.h as a state transformer: given the
argument vector, the option string and the incoming state it yields the
returned int code paired with the outgoing state, or none when the C code
would read out of bounds. -/
def getopt (argv : Argv) (optStr : CStr) (st0 : GState) :
    Option (Int × GState) :=
  let st : GState := { st0 with optarg := none }
  if st.argIdx = 0 then
    if st.optind ≥ argv.length then some (-1, st)
    else
      match argv.get? st.optind with
      | none => none
      | some none => some (-1, st)
      | some (some a) =>
        if cRead a 0 ≠ some '-' then some (-1, st)
        else if cstr a = ['-'] then some (-1, st)
        else if cstr a = ['-', '-'] then
          some (-1, { st with optind := st.optind + 1 })
        else
          scanBody argv optStr { st with argIdx := 1 }
  else
    scanBody argv optStr st

/-- Effective character offset a call scans at: a call entered at a token
boundary first advances arg_idx to 1, a resumed call scans at arg_idx. -/
def scanIdx (st : GState) : Nat :=
  if st.argIdx = 0 then 1 else st.argIdx

/-- Character a non EndOfOptions call scans: the character of the current
argv element at the effective offset. -/
def scannedChar (argv : Argv) (st : GState) : Option Char :=
  match argv.get? st.optind with
  | some (some a) => cRead a (scanIdx st)
  | _ => none

/-- Dereference an optarg pointer: the C string value it points to inside
the argument vector. -/
def derefArg (argv : Argv) : Option (Nat × Nat) → Option CStr
  | none => none
  | some (i, j) =>
    match argv.get? i with
    | some (some s) => some (cstr (s.drop j))
    | _ => none

/-- Mid token invariant: whenever the static arg_idx is nonzero, the
current argv element exists (the element index is below argc and the
entry is non null), begins with '-', and arg_idx indexes a character of
the element strictly before its terminator. -/
def MidTokenInv (argv : Argv) (st : GState) : Prop :=
  st.argIdx ≠ 0 →
    st.optind < argv.length ∧
    ∃ a, argv.get? st.optind = some (some a) ∧
      cRead a 0 = some '-' ∧
      ∃ ch, cRead a st.argIdx = some ch ∧ ch ≠ NUL

/-- States reachable by repeated calls to getopt from the documented
starting state (element index 1, offset 0). -/
inductive Reaches (argv : Argv) (optStr : CStr) : GState → Prop where
  | init : Reaches argv optStr initState
  | step {st : GState} {r : Int} {st' : GState} :
      Reaches argv optStr st →
      getopt argv optStr st = some (r, st') →
      Reaches argv optStr st'

/-! Helper lemmas about the C string reads. -/

theorem cRead_length (s : CStr) : cRead s s.length = some NUL :=
  List.get?_concat_length s NUL

theorem cRead_exists_of_le {s : CStr} {j : Nat} (h : j ≤ s.length) :
    ∃ c, cRead s j = some c := by
  have hlt : j < (s ++ [NUL]).length := by
    simp only [List.length_append, List.length_singleton]
    omega
  exact ⟨_, List.get?_eq_get hlt⟩

theorem cRead_eq_none {s : CStr} {j : Nat} (h : s.length + 1 ≤ j) :
    cRead s j = none := by
  apply List.get?_len_le
  simp only [List.length_append, List.length_singleton]
  omega

theorem lt_of_cRead_ne_NUL {s : CStr} {j : Nat} {c : Char}
    (h : cRead s j = some c) (hc : c ≠ NUL) : j < s.length := by
  by_contra hle
  push_neg at hle
  rcases Nat.lt_or_ge j (s.length + 1) with h1 | h1
  · have hj : j = s.length := by omega
    rw [hj, cRead_length] at h
    exact hc (Option.some.inj h).symm
  · rw [cRead_eq_none h1] at h
    exact Option.noConfusion h

theorem cRead_succ_exists {s : CStr} {j : Nat} {c : Char}
    (h : cRead s j = some c) (hc : c ≠ NUL) :
    ∃ ch, cRead s (j + 1) = some ch :=
  cRead_exists_of_le (lt_of_cRead_ne_NUL h hc)

theorem strchrIdx_lt {s : CStr} {c : Char} {k : Nat}
    (h : strchrIdx s c = some k) (hc : c ≠ NUL) : k < s.length := by
  induction s generalizing k with
  | nil =>
    unfold strchrIdx at h
    rw [if_neg hc] at h
    exact Option.noConfusion h
  | cons x xs ih =>
    unfold strchrIdx at h
    by_cases hx : x = c
    · rw [if_pos hx] at h
      have : k = 0 := (Option.some.inj h).symm
      simp [this]
    · rw [if_neg hx] at h
      by_cases hxn : x = NUL
      · rw [if_pos hxn] at h
        exact Option.noConfusion h
      · rw [if_neg hxn] at h
        rcases Option.map_eq_some'.mp h with ⟨k0, hk0, hkk⟩
        subst hkk
        exact Nat.succ_lt_succ (ih hk0)

/-! Bridge from getopt to scanBody: when the current element passes the
token boundary checks (or the call resumes mid token), getopt is the scan
body at the effective offset. -/

theorem getopt_eq_scanBody {argv : Argv} {optStr : CStr} {st : GState}
    {a : CStr}
    (ha : argv.get? st.optind = some (some a))
    (hentry : st.argIdx = 0 →
      cRead a 0 = some '-' ∧ cstr a ≠ ['-'] ∧ cstr a ≠ ['-', '-']) :
    getopt argv optStr st =
      scanBody argv optStr { st with optarg := none, argIdx := scanIdx st } := by
  have hlt : st.optind < argv.length := by
    rcases List.get?_eq_some.mp ha with ⟨h, _⟩
    exact h
  by_cases h0 : st.argIdx = 0
  · obtain ⟨hdash, h1, h2⟩ := hentry h0
    unfold getopt
    simp only [h0, scanIdx, if_true, if_pos rfl, ge_iff_le,
      if_neg (Nat.not_le.mpr hlt), ha, hdash]
    rw [if_neg (by simp [hdash]), if_neg h1, if_neg h2]
  · unfold getopt
    simp only [h0, scanIdx, if_neg h0, if_false]

/-! Forward evaluation lemmas, one per branch of the scan body. -/

theorem scanBody_unknown_mid {argv : Argv} {optStr : CStr} {st : GState}
    {a : CStr} {c ch : Char}
    (ha : argv.get? st.optind = some (some a))
    (hc : cRead a st.argIdx = some c)
    (hbad : c = ':' ∨ strchrIdx optStr c = none)
    (hch : cRead a (st.argIdx + 1) = some ch) (hchn : ch ≠ NUL) :
    scanBody argv optStr st =
      some (optionUnknown,
        { st with optopt := c, argIdx := st.argIdx + 1 }) := by
  simp only [scanBody, ha, hc, if_pos hbad, hch, if_neg hchn]

theorem scanBody_unknown_last {argv : Argv} {optStr : CStr} {st : GState}
    {a : CStr} {c : Char}
    (ha : argv.get? st.optind = some (some a))
    (hc : cRead a st.argIdx = some c)
    (hbad : c = ':' ∨ strchrIdx optStr c = none)
    (hch : cRead a (st.argIdx + 1) = some NUL) :
    scanBody argv optStr st =
      some (optionUnknown,
        { st with optopt := c, optind := st.optind + 1, argIdx := 0 }) := by
  simp only [scanBody, ha, hc, if_pos hbad, hch]
  simp

theorem scanBody_glued {argv : Argv} {optStr : CStr} {st : GState}
    {a : CStr} {c ch : Char} {k : Nat}
    (ha : argv.get? st.optind = some (some a))
    (hc : cRead a st.argIdx = some c)
    (hcc : c ≠ ':')
    (hk : strchrIdx optStr c = some k)
    (hcol : cRead optStr (k + 1) = some ':')
    (hch : cRead a (st.argIdx + 1) = some ch) (hchn : ch ≠ NUL) :
    scanBody argv optStr st =
      some (Int.ofNat c.toNat,
        { st with optopt := c, optarg := some (st.optind, st.argIdx + 1),
                  optind := st.optind + 1, argIdx := 0 }) := by
  have hbad : ¬(c = ':' ∨ strchrIdx optStr c = none) := by
    simp [hcc, hk]
  simp only [scanBody, ha, hc, hk, hcol, hch]
  simp [hcc, hchn]

theorem scanBody_next_arg {argv : Argv} {optStr : CStr} {st : GState}
    {a : CStr} {c : Char} {k : Nat} {e : Option CStr}
    (ha : argv.get? st.optind = some (some a))
    (hc : cRead a st.argIdx = some c)
    (hcc : c ≠ ':')
    (hk : strchrIdx optStr c = some k)
    (hcol : cRead optStr (k + 1) = some ':')
    (hch : cRead a (st.argIdx + 1) = some NUL)
    (hnext : argv.get? (st.optind + 1) = some e) :
    scanBody argv optStr st =
      some (Int.ofNat c.toNat,
        { st with optopt := c,
                  optarg := e.map (fun _ => (st.optind + 1, 0)),
                  optind := st.optind + 2, argIdx := 0 }) := by
  have hbad : ¬(c = ':' ∨ strchrIdx optStr c = none) := by
    simp [hcc, hk]
  have hlt2 : st.optind + 1 < argv.length := by
    rcases List.get?_eq_some.mp hnext with ⟨h, _⟩
    exact h
  have h2 := List.get?_eq_get hlt2
  rw [hnext] at h2
  simp only [List.get_eq_getElem, Option.some.injEq] at h2
  simp only [scanBody, ha, hc, hk, hcol, hch]
  simp [hcc, hlt2, hnext, h2.symm]

theorem scanBody_missing {argv : Argv} {optStr : CStr} {st : GState}
    {a : CStr} {c : Char} {k : Nat}
    (ha : argv.get? st.optind = some (some a))
    (hc : cRead a st.argIdx = some c)
    (hcc : c ≠ ':')
    (hk : strchrIdx optStr c = some k)
    (hcol : cRead optStr (k + 1) = some ':')
    (hch : cRead a (st.argIdx + 1) = some NUL)
    (hge : argv.length ≤ st.optind + 1) :
    scanBody argv optStr st =
      some ((if cRead optStr 0 = some ':' then optionMissing
             else optionUnknown),
        { st with optopt := c, optind := st.optind + 1, argIdx := 0 }) := by
  have hbad : ¬(c = ':' ∨ strchrIdx optStr c = none) := by
    simp [hcc, hk]
  simp only [scanBody, ha, hc, hk, hcol, hch]
  simp [hcc, Nat.not_lt.mpr hge]

theorem scanBody_noarg_mid {argv : Argv} {optStr : CStr} {st : GState}
    {a : CStr} {c nc ch : Char} {k : Nat}
    (ha : argv.get? st.optind = some (some a))
    (hc : cRead a st.argIdx = some c)
    (hcc : c ≠ ':')
    (hk : strchrIdx optStr c = some k)
    (hnc : cRead optStr (k + 1) = some nc) (hncc : nc ≠ ':')
    (hch : cRead a (st.argIdx + 1) = some ch) (hchn : ch ≠ NUL) :
    scanBody argv optStr st =
      some (Int.ofNat c.toNat,
        { st with optopt := c, argIdx := st.argIdx + 1 }) := by
  have hbad : ¬(c = ':' ∨ strchrIdx optStr c = none) := by
    simp [hcc, hk]
  simp only [scanBody, ha, hc, hk, hnc, hch]
  simp [hcc, hncc, hchn]

theorem scanBody_noarg_last {argv : Argv} {optStr : CStr} {st : GState}
    {a : CStr} {c nc : Char} {k : Nat}
    (ha : argv.get? st.optind = some (some a))
    (hc : cRead a st.argIdx = some c)
    (hcc : c ≠ ':')
    (hk : strchrIdx optStr c = some k)
    (hnc : cRead optStr (k + 1) = some nc) (hncc : nc ≠ ':')
    (hch : cRead a (st.argIdx + 1) = some NUL) :
    scanBody argv optStr st =
      some (Int.ofNat c.toNat,
        { st with optopt := c, optind := st.optind + 1, argIdx := 0 }) := by
  have hbad : ¬(c = ':' ∨ strchrIdx optStr c = none) := by
    simp [hcc, hk]
  simp only [scanBody, ha, hc, hk, hnc, hch]
  simp [hcc, hncc]

/-! Forward evaluation lemmas for the token boundary section of getopt
(lines 205 to 217 of getopt_p.h). -/

theorem getopt_end_past {argv : Argv} {optStr : CStr} {st : GState}
    (h0 : st.argIdx = 0) (h : argv.length ≤ st.optind) :
    getopt argv optStr st = some (-1, { st with optarg := none }) := by
  simp [getopt, h0, h]

theorem getopt_end_null {argv : Argv} {optStr : CStr} {st : GState}
    (h0 : st.argIdx = 0) (h : argv.get? st.optind = some none) :
    getopt argv optStr st = some (-1, { st with optarg := none }) := by
  have hlt : st.optind < argv.length := by
    rcases List.get?_eq_some.mp h with ⟨hh, _⟩
    exact hh
  have h2 : argv[st.optind]? = some none := by
    rw [← List.get?_eq_getElem?]
    exact h
  simp [getopt, h0, Nat.not_le.mpr hlt, h2]

theorem getopt_end_nodash {argv : Argv} {optStr : CStr} {st : GState}
    {a : CStr}
    (h0 : st.argIdx = 0) (ha : argv.get? st.optind = some (some a))
    (h : cRead a 0 ≠ some '-') :
    getopt argv optStr st = some (-1, { st with optarg := none }) := by
  have hlt : st.optind < argv.length := by
    rcases List.get?_eq_some.mp ha with ⟨hh, _⟩
    exact hh
  have ha2 : argv[st.optind]? = some (some a) := by
    rw [← List.get?_eq_getElem?]
    exact ha
  simp [getopt, h0, Nat.not_le.mpr hlt, ha2, h]

theorem cRead_zero_of_cstr_cons {a : CStr} {x : Char} {l : CStr}
    (h : cstr a = x :: l) : cRead a 0 = some x := by
  cases a with
  | nil => exact absurd h (by simp [cstr])
  | cons y ys =>
    by_cases hy : y = NUL
    · rw [cstr, List.takeWhile] at h
      simp [hy] at h
    · rw [cstr, List.takeWhile] at h
      simp only [hy, decide_not, ne_eq, decide_eq_true_eq,
        if_pos (by simpa using hy)] at h
      have : y = x := (List.cons.injEq _ _ _ _ ▸ h).1
      simp [cRead, this]

theorem getopt_end_dash {argv : Argv} {optStr : CStr} {st : GState}
    {a : CStr}
    (h0 : st.argIdx = 0) (ha : argv.get? st.optind = some (some a))
    (h : cstr a = ['-']) :
    getopt argv optStr st = some (-1, { st with optarg := none }) := by
  have hlt : st.optind < argv.length := by
    rcases List.get?_eq_some.mp ha with ⟨hh, _⟩
    exact hh
  have hdash : cRead a 0 = some '-' := cRead_zero_of_cstr_cons h
  have ha2 : argv[st.optind]? = some (some a) := by
    rw [← List.get?_eq_getElem?]
    exact ha
  simp [getopt, h0, Nat.not_le.mpr hlt, ha2, hdash, h]

theorem getopt_end_ddash {argv : Argv} {optStr : CStr} {st : GState}
    {a : CStr}
    (h0 : st.argIdx = 0) (ha : argv.get? st.optind = some (some a))
    (h : cstr a = ['-', '-']) :
    getopt argv optStr st =
      some (-1, { st with optarg := none, optind := st.optind + 1 }) := by
  have hlt : st.optind < argv.length := by
    rcases List.get?_eq_some.mp ha with ⟨hh, _⟩
    exact hh
  have hdash : cRead a 0 = some '-' := cRead_zero_of_cstr_cons h
  have hne : cstr a ≠ ['-'] := by
    rw [h]
    intro hcontra
    exact absurd hcontra (by decide)
  have ha2 : argv[st.optind]? = some (some a) := by
    rw [← List.get?_eq_getElem?]
    exact ha
  simp [getopt, h0, Nat.not_le.mpr hlt, ha2, hdash, hne, h]

/-- C1: when the scanner reads an option character c that the option
string declares argument taking, the argument is resolved first from the
non empty remainder of the current token, consuming only that element
(the element index advances by one) and pointing optarg at the remainder;
otherwise from the entirety of the next vector element when one exists,
consuming both elements (the element index advances by two); in both
cases the call returns c. -/
theorem c1_argument_resolution {argv : Argv} {optStr : CStr} {st : GState}
    {a : CStr} {c : Char} {k : Nat}
    (ha : argv.get? st.optind = some (some a))
    (hentry : st.argIdx = 0 →
      cRead a 0 = some '-' ∧ cstr a ≠ ['-'] ∧ cstr a ≠ ['-', '-'])
    (hc : cRead a (scanIdx st) = some c)
    (hcc : c ≠ ':')
    (hk : strchrIdx optStr c = some k)
    (hcol : cRead optStr (k + 1) = some ':') :
    (∀ ch, cRead a (scanIdx st + 1) = some ch → ch ≠ NUL →
      getopt argv optStr st =
        some (Int.ofNat c.toNat,
          { st with optopt := c, optarg := some (st.optind, scanIdx st + 1),
                    optind := st.optind + 1, argIdx := 0 }) ∧
      derefArg argv (some (st.optind, scanIdx st + 1)) =
        some (cstr (a.drop (scanIdx st + 1))))
    ∧ (cRead a (scanIdx st + 1) = some NUL →
      ∀ b, argv.get? (st.optind + 1) = some (some b) →
      getopt argv optStr st =
        some (Int.ofNat c.toNat,
          { st with optopt := c, optarg := some (st.optind + 1, 0),
                    optind := st.optind + 2, argIdx := 0 }) ∧
      derefArg argv (some (st.optind + 1, 0)) = some (cstr b)) := by
  have ha2 : argv[st.optind]? = some (some a) := by
    rw [← List.get?_eq_getElem?]
    exact ha
  have hbridge := @getopt_eq_scanBody argv optStr st a ha hentry
  constructor
  · intro ch hch hchn
    constructor
    · rw [hbridge]
      exact scanBody_glued ha hc hcc hk hcol hch hchn
    · simp [derefArg, ha2]
  · intro hch b hb
    have hb2 : argv[st.optind + 1]? = some (some b) := by
      rw [← List.get?_eq_getElem?]
      exact hb
    constructor
    · rw [hbridge]
      exact @scanBody_next_arg argv optStr
        { st with optarg := none, argIdx := scanIdx st } a c k (some b)
        ha hc hcc hk hcol hch hb
    · simp [derefArg, hb2]

/-- C2: when the scanned option character c is declared argument taking,
sits last in the current element, and no further element exists, the call
returns the distinguished ':' code when the option string starts with ':'
and the generic '?' code otherwise; optopt is set to c and the element
index advances past the exhausted token. -/
theorem c2_missing_argument {argv : Argv} {optStr : CStr} {st : GState}
    {a : CStr} {c : Char} {k : Nat}
    (ha : argv.get? st.optind = some (some a))
    (hentry : st.argIdx = 0 →
      cRead a 0 = some '-' ∧ cstr a ≠ ['-'] ∧ cstr a ≠ ['-', '-'])
    (hc : cRead a (scanIdx st) = some c)
    (hcc : c ≠ ':')
    (hk : strchrIdx optStr c = some k)
    (hcol : cRead optStr (k + 1) = some ':')
    (hlast : cRead a (scanIdx st + 1) = some NUL)
    (hnomore : argv.length ≤ st.optind + 1) :
    getopt argv optStr st =
      some ((if cRead optStr 0 = some ':' then optionMissing
             else optionUnknown),
        { st with optopt := c, optarg := none,
                  optind := st.optind + 1, argIdx := 0 }) := by
  rw [@getopt_eq_scanBody argv optStr st a ha hentry]
  exact scanBody_missing ha hc hcc hk hcol hlast hnomore

/-- C3: a call at a token boundary returns EndOfOptions without moving the
element index when the index is at or past the end of the vector, the
current element is null, the element does not begin with '-', or the
element is exactly "-"; when the element is exactly "--" the index first
advances past it and EndOfOptions is returned. -/
theorem c3_end_of_options {argv : Argv} {optStr : CStr} {st : GState}
    (h0 : st.argIdx = 0) :
    (argv.length ≤ st.optind →
      getopt argv optStr st = some (-1, { st with optarg := none }))
    ∧ (argv.get? st.optind = some none →
      getopt argv optStr st = some (-1, { st with optarg := none }))
    ∧ (∀ a, argv.get? st.optind = some (some a) → cRead a 0 ≠ some '-' →
      getopt argv optStr st = some (-1, { st with optarg := none }))
    ∧ (∀ a, argv.get? st.optind = some (some a) → cstr a = ['-'] →
      getopt argv optStr st = some (-1, { st with optarg := none }))
    ∧ (∀ a, argv.get? st.optind = some (some a) → cstr a = ['-', '-'] →
      getopt argv optStr st =
        some (-1, { st with optarg := none, optind := st.optind + 1 })) :=
  ⟨fun h => getopt_end_past h0 h,
   fun h => getopt_end_null h0 h,
   fun a ha h => getopt_end_nodash h0 ha h,
   fun a ha h => getopt_end_dash h0 ha h,
   fun a ha h => getopt_end_ddash h0 ha h⟩

theorem scanBody_cases {argv : Argv} {optStr : CStr} {st : GState}
    {r : Int} {st' : GState}
    (h : scanBody argv optStr st = some (r, st')) :
    ∃ a c, argv.get? st.optind = some (some a) ∧
      cRead a st.argIdx = some c ∧
      (((c = ':' ∨ strchrIdx optStr c = none) ∧ r = optionUnknown ∧
         ((∃ ch, cRead a (st.argIdx + 1) = some ch ∧ ch ≠ NUL ∧
            st' = { st with optopt := c, argIdx := st.argIdx + 1 }) ∨
          (cRead a (st.argIdx + 1) = some NUL ∧
            st' = { st with optopt := c, optind := st.optind + 1,
                            argIdx := 0 })))
       ∨ (∃ k, c ≠ ':' ∧ strchrIdx optStr c = some k ∧
           cRead optStr (k + 1) = some ':' ∧
           ((∃ ch, cRead a (st.argIdx + 1) = some ch ∧ ch ≠ NUL ∧
              r = Int.ofNat c.toNat ∧
              st' = { st with optopt := c,
                              optarg := some (st.optind, st.argIdx + 1),
                              optind := st.optind + 1, argIdx := 0 }) ∨
            (cRead a (st.argIdx + 1) = some NUL ∧
             ∃ e, st.optind + 1 < argv.length ∧
               argv.get? (st.optind + 1) = some e ∧
               r = Int.ofNat c.toNat ∧
               st' = { st with optopt := c,
                               optarg := e.map (fun _ => (st.optind + 1, 0)),
                               optind := st.optind + 2, argIdx := 0 }) ∨
            (cRead a (st.argIdx + 1) = some NUL ∧
             argv.length ≤ st.optind + 1 ∧
             r = (if cRead optStr 0 = some ':' then optionMissing
                  else optionUnknown) ∧
             st' = { st with optopt := c, optind := st.optind + 1,
                             argIdx := 0 })))
       ∨ (∃ k nc, c ≠ ':' ∧ strchrIdx optStr c = some k ∧
           cRead optStr (k + 1) = some nc ∧ nc ≠ ':' ∧
           r = Int.ofNat c.toNat ∧
           ((∃ ch, cRead a (st.argIdx + 1) = some ch ∧ ch ≠ NUL ∧
              st' = { st with optopt := c, argIdx := st.argIdx + 1 }) ∨
            (cRead a (st.argIdx + 1) = some NUL ∧
             st' = { st with optopt := c, optind := st.optind + 1,
                             argIdx := 0 })))) := by
  unfold scanBody at h
  split at h
  · exact absurd h (by simp)
  · exact absurd h (by simp)
  · rename_i a ha
    split at h
    · exact absurd h (by simp)
    · rename_i c hc
      simp only [] at h
      refine ⟨a, c, ha, hc, ?_⟩
      by_cases hbad : c = ':' ∨ strchrIdx optStr c = none
      · rw [if_pos hbad] at h
        split at h
        · exact absurd h (by simp)
        · rename_i ch hch
          by_cases hn : ch = NUL
          · rw [if_pos hn] at h
            simp only [Option.some.injEq, Prod.mk.injEq] at h
            obtain ⟨hr, hst⟩ := h
            subst hn
            exact Or.inl ⟨hbad, hr.symm, Or.inr ⟨hch, hst.symm⟩⟩
          · rw [if_neg hn] at h
            simp only [Option.some.injEq, Prod.mk.injEq] at h
            obtain ⟨hr, hst⟩ := h
            exact Or.inl ⟨hbad, hr.symm, Or.inl ⟨ch, hch, hn, hst.symm⟩⟩
      · rw [if_neg hbad] at h
        push_neg at hbad
        obtain ⟨hcc, hcpn⟩ := hbad
        split at h
        · rename_i hnone
          exact absurd hnone hcpn
        · rename_i k hk
          split at h
          · exact absurd h (by simp)
          · rename_i nc hnc
            by_cases hncc : nc = ':'
            · rw [if_pos hncc] at h
              subst hncc
              split at h
              · exact absurd h (by simp)
              · rename_i ch hch
                by_cases hn : ch ≠ NUL
                · rw [if_pos hn] at h
                  simp only [Option.some.injEq, Prod.mk.injEq] at h
                  obtain ⟨hr, hst⟩ := h
                  exact Or.inr (Or.inl ⟨k, hcc, hk, hnc,
                    Or.inl ⟨ch, hch, hn, hr.symm, hst.symm⟩⟩)
                · rw [if_neg hn] at h
                  push_neg at hn
                  subst hn
                  by_cases hlt : st.optind + 1 < argv.length
                  · rw [if_pos hlt] at h
                    split at h
                    · exact absurd h (by simp)
                    · rename_i e hnext
                      simp only [Option.some.injEq, Prod.mk.injEq] at h
                      obtain ⟨hr, hst⟩ := h
                      exact Or.inr (Or.inl ⟨k, hcc, hk, hnc,
                        Or.inr (Or.inl ⟨hch, e, hlt, hnext, hr.symm,
                          hst.symm⟩)⟩)
                  · rw [if_neg hlt] at h
                    simp only [Option.some.injEq, Prod.mk.injEq] at h
                    obtain ⟨hr, hst⟩ := h
                    exact Or.inr (Or.inl ⟨k, hcc, hk, hnc,
                      Or.inr (Or.inr ⟨hch, Nat.not_lt.mp hlt, hr.symm,
                        hst.symm⟩)⟩)
            · rw [if_neg hncc] at h
              split at h
              · exact absurd h (by simp)
              · rename_i ch hch
                by_cases hn : ch = NUL
                · rw [if_pos hn] at h
                  simp only [Option.some.injEq, Prod.mk.injEq] at h
                  obtain ⟨hr, hst⟩ := h
                  subst hn
                  exact Or.inr (Or.inr ⟨k, nc, hcc, hk, hnc, hncc, hr.symm,
                    Or.inr ⟨hch, hst.symm⟩⟩)
                · rw [if_neg hn] at h
                  simp only [Option.some.injEq, Prod.mk.injEq] at h
                  obtain ⟨hr, hst⟩ := h
                  exact Or.inr (Or.inr ⟨k, nc, hcc, hk, hnc, hncc, hr.symm,
                    Or.inl ⟨ch, hch, hn, hst.symm⟩⟩)

theorem getopt_cases {argv : Argv} {optStr : CStr} {st : GState}
    {r : Int} {st' : GState}
    (h : getopt argv optStr st = some (r, st')) :
    (st.argIdx = 0 ∧ r = -1 ∧
      ((st' = { st with optarg := none } ∧
        (argv.length ≤ st.optind ∨ argv.get? st.optind = some none ∨
         ∃ a, argv.get? st.optind = some (some a) ∧
           (cRead a 0 ≠ some '-' ∨ cstr a = ['-']))) ∨
       (st' = { st with optarg := none, optind := st.optind + 1 } ∧
        ∃ a, argv.get? st.optind = some (some a) ∧ cstr a = ['-', '-'])))
    ∨ ((∃ a, argv.get? st.optind = some (some a) ∧
         (st.argIdx = 0 →
           cRead a 0 = some '-' ∧ cstr a ≠ ['-'] ∧ cstr a ≠ ['-', '-'])) ∧
       scanBody argv optStr
         { st with optarg := none, argIdx := scanIdx st } = some (r, st')) := by
  unfold getopt at h
  simp only [] at h
  by_cases h0 : st.argIdx = 0
  · rw [if_pos h0] at h
    by_cases hge : st.optind ≥ argv.length
    · rw [if_pos hge] at h
      simp only [Option.some.injEq, Prod.mk.injEq] at h
      obtain ⟨hr, hst⟩ := h
      exact Or.inl ⟨h0, hr.symm, Or.inl ⟨hst.symm, Or.inl hge⟩⟩
    · rw [if_neg hge] at h
      split at h
      · exact absurd h (by simp)
      · rename_i hnull
        simp only [Option.some.injEq, Prod.mk.injEq] at h
        obtain ⟨hr, hst⟩ := h
        exact Or.inl ⟨h0, hr.symm, Or.inl ⟨hst.symm, Or.inr (Or.inl hnull)⟩⟩
      · rename_i a ha
        by_cases hnd : cRead a 0 ≠ some '-'
        · rw [if_pos hnd] at h
          simp only [Option.some.injEq, Prod.mk.injEq] at h
          obtain ⟨hr, hst⟩ := h
          exact Or.inl ⟨h0, hr.symm,
            Or.inl ⟨hst.symm, Or.inr (Or.inr ⟨a, ha, Or.inl hnd⟩)⟩⟩
        · rw [if_neg hnd] at h
          push_neg at hnd
          by_cases hd1 : cstr a = ['-']
          · rw [if_pos hd1] at h
            simp only [Option.some.injEq, Prod.mk.injEq] at h
            obtain ⟨hr, hst⟩ := h
            exact Or.inl ⟨h0, hr.symm,
              Or.inl ⟨hst.symm, Or.inr (Or.inr ⟨a, ha, Or.inr hd1⟩)⟩⟩
          · rw [if_neg hd1] at h
            by_cases hd2 : cstr a = ['-', '-']
            · rw [if_pos hd2] at h
              simp only [Option.some.injEq, Prod.mk.injEq] at h
              obtain ⟨hr, hst⟩ := h
              exact Or.inl ⟨h0, hr.symm, Or.inr ⟨hst.symm, a, ha, hd2⟩⟩
            · rw [if_neg hd2] at h
              refine Or.inr ⟨⟨a, ha, fun _ => ⟨hnd, hd1, hd2⟩⟩, ?_⟩
              have hs : scanIdx st = 1 := by simp [scanIdx, h0]
              rw [hs]
              exact h
  · rw [if_neg h0] at h
    obtain ⟨a, c, ha, _⟩ := scanBody_cases h
    refine Or.inr ⟨⟨a, ha, fun hc0 => absurd hc0 h0⟩, ?_⟩
    have hs : scanIdx st = st.argIdx := by simp [scanIdx, h0]
    rw [hs]
    exact h

/-- C4 counterexample: with option string "f:" and vector ["p", "-f"] the
call returns the unknown option code '?' although the scanned character
'f' is present in the option string and is not ':'; hence the claimed
equivalence (return '?' exactly when the character is unknown or the
marker) fails on the missing argument path. -/
theorem c4_counterexample :
    getopt [some ['p'], some ['-', 'f']] ['f', ':'] initState =
      some (optionUnknown,
        { optind := 2, argIdx := 0, optopt := 'f', optarg := none })
    ∧ scannedChar [some ['p'], some ['-', 'f']] initState = some 'f'
    ∧ strchrIdx ['f', ':'] 'f' = some 0
    ∧ ('f' : Char) ≠ ':'
    ∧ optionUnknown = Int.ofNat (Char.toNat '?') := by
  decide

/-- C4 (amended): whenever the scanned character c is the reserved marker
':' or is not present in the option string, the call returns the generic
unknown option code '?' whatever the first character of the option string
is; optopt records c, optarg stays null, and the cursor advances past the
single offending character only: to the next character of the same element
when siblings remain, to the start of the next element when c was the last
character.  The converse fails: '?' is also returned on the missing
argument path when the option string lacks the leading ':'. -/
theorem c4_unknown_option {argv : Argv} {optStr : CStr} {st : GState}
    {a : CStr} {c : Char}
    (ha : argv.get? st.optind = some (some a))
    (hentry : st.argIdx = 0 →
      cRead a 0 = some '-' ∧ cstr a ≠ ['-'] ∧ cstr a ≠ ['-', '-'])
    (hc : cRead a (scanIdx st) = some c)
    (hbad : c = ':' ∨ strchrIdx optStr c = none) :
    (∀ ch, cRead a (scanIdx st + 1) = some ch → ch ≠ NUL →
      getopt argv optStr st =
        some (optionUnknown,
          { st with optopt := c, optarg := none,
                    argIdx := scanIdx st + 1 }))
    ∧ (cRead a (scanIdx st + 1) = some NUL →
      getopt argv optStr st =
        some (optionUnknown,
          { st with optopt := c, optarg := none,
                    optind := st.optind + 1, argIdx := 0 })) := by
  have hb := @getopt_eq_scanBody argv optStr st a ha hentry
  refine ⟨fun ch hch hchn => ?_, fun hch => ?_⟩
  · rw [hb]
    exact scanBody_unknown_mid ha hc hbad hch hchn
  · rw [hb]
    exact scanBody_unknown_last ha hc hbad hch

/-- C5: characters of a packed token are emitted strictly left to right,
one per call: a declared option character taking no argument moves the
offset one character to the right within the same element while siblings
remain, and the last such character closes the token and moves to the next
element; an argument taking option always closes its token, whatever way
its argument is resolved. -/
theorem c5_packed_left_to_right {argv : Argv} {optStr : CStr} {st : GState}
    {a : CStr} {c : Char}
    (ha : argv.get? st.optind = some (some a))
    (hentry : st.argIdx = 0 →
      cRead a 0 = some '-' ∧ cstr a ≠ ['-'] ∧ cstr a ≠ ['-', '-'])
    (hc : cRead a (scanIdx st) = some c) :
    (∀ k nc ch, c ≠ ':' → strchrIdx optStr c = some k →
      cRead optStr (k + 1) = some nc → nc ≠ ':' →
      cRead a (scanIdx st + 1) = some ch → ch ≠ NUL →
      getopt argv optStr st =
        some (Int.ofNat c.toNat,
          { st with optopt := c, optarg := none,
                    argIdx := scanIdx st + 1 }))
    ∧ (∀ k nc, c ≠ ':' → strchrIdx optStr c = some k →
      cRead optStr (k + 1) = some nc → nc ≠ ':' →
      cRead a (scanIdx st + 1) = some NUL →
      getopt argv optStr st =
        some (Int.ofNat c.toNat,
          { st with optopt := c, optarg := none,
                    optind := st.optind + 1, argIdx := 0 }))
    ∧ (∀ k, c ≠ ':' → strchrIdx optStr c = some k →
      cRead optStr (k + 1) = some ':' →
      ∀ r st2, getopt argv optStr st = some (r, st2) → st2.argIdx = 0) := by
  have hb := @getopt_eq_scanBody argv optStr st a ha hentry
  refine ⟨?_, ?_, ?_⟩
  · intro k nc ch hcc hk hnc hncc hch hchn
    rw [hb]
    exact scanBody_noarg_mid ha hc hcc hk hnc hncc hch hchn
  · intro k nc hcc hk hnc hncc hch
    rw [hb]
    exact scanBody_noarg_last ha hc hcc hk hnc hncc hch
  · intro k hcc hk hcol r st2 hrun
    rw [hb] at hrun
    obtain ⟨a2, c2, ha2, hc2, hD⟩ := scanBody_cases hrun
    have haa : a2 = a := by
      have := ha2.symm.trans ha
      simpa using this
    subst haa
    have hcc2 : c2 = c := by
      have := hc2.symm.trans hc
      simpa using this
    subst hcc2
    rcases hD with ⟨hbad, _⟩ | ⟨k2, _, hk2, hcol2, hleaf⟩ |
      ⟨k2, nc2, _, hk2, hnc2, hncc2, _, _⟩
    · rcases hbad with hcolon | hnone
      · exact absurd hcolon hcc
      · rw [hk] at hnone
        exact Option.noConfusion hnone
    · rcases hleaf with ⟨ch, _, _, _, hst⟩ | ⟨_, e, _, _, _, hst⟩ |
        ⟨_, _, _, hst⟩ <;> simp [hst]
    · have hkk : k2 = k := by
        have := hk2.symm.trans hk
        simpa using this
      subst hkk
      have : nc2 = ':' := by
        have := hnc2.symm.trans hcol
        simpa using this
      exact absurd this hncc2

/-- C6 counterexample: for vector ["p", "--", "-x"] and option string "x"
the first call returns EndOfOptions, yet the very next call scans "-x" as
an option and returns the code of 'x', not EndOfOptions. -/
theorem c6_counterexample :
    getopt [some ['p'], some ['-', '-'], some ['-', 'x']] ['x'] initState =
      some (-1, { optind := 2, argIdx := 0, optopt := '?', optarg := none })
    ∧ getopt [some ['p'], some ['-', '-'], some ['-', 'x']] ['x']
        { optind := 2, argIdx := 0, optopt := '?', optarg := none } =
      some (Int.ofNat (Char.toNat 'x'),
        { optind := 3, argIdx := 0, optopt := 'x', optarg := none })
    ∧ (Int.ofNat (Char.toNat 'x') : Int) ≠ -1 := by
  decide

/-- C6 (amended): when a call returns EndOfOptions without moving the
element index (every EndOfOptions case except the consumed "--" marker),
the state is a fixed point: a further call returns EndOfOptions again and
leaves the state unchanged.  After "--" the index has moved past the
marker and a further call treats the following element as a fresh token,
so the caller must stop at the first EndOfOptions. -/
theorem c6_end_idempotent {argv : Argv} {optStr : CStr} {st : GState}
    {st' : GState}
    (h : getopt argv optStr st = some (-1, st'))
    (hsame : st'.optind = st.optind) :
    getopt argv optStr st' = some (-1, st') := by
  rcases getopt_cases h with ⟨h0, _, hcase⟩ | ⟨_, hscan⟩
  · rcases hcase with ⟨hst, hcond⟩ | ⟨hst, _⟩
    · subst hst
      rcases hcond with hge | hnull | ⟨a, ha, hnd | hda⟩
      · exact getopt_end_past (by simp [h0]) (by simpa using hge)
      · exact getopt_end_null (by simp [h0]) (by simpa using hnull)
      · exact getopt_end_nodash (by simp [h0]) (by simpa using ha)
          (by simpa using hnd)
      · exact getopt_end_dash (by simp [h0]) (by simpa using ha)
          (by simpa using hda)
    · subst hst
      simp at hsame
  · obtain ⟨a, c, _, _, hD⟩ := scanBody_cases hscan
    exfalso
    have hofNat : ∀ n : Nat, (-1 : Int) ≠ Int.ofNat n := by
      intro n hcontra
      have h2 : (n : Int) = -1 := by exact_mod_cast hcontra.symm
      omega
    rcases hD with ⟨_, hr, _⟩ | ⟨k, _, _, _, hleaf⟩ |
      ⟨k, nc, _, _, _, _, hr, _⟩
    · exact absurd hr (by decide)
    · rcases hleaf with ⟨ch, _, _, hr, _⟩ | ⟨_, e, _, _, hr, _⟩ |
        ⟨_, _, hr, _⟩
      · exact hofNat _ hr
      · exact hofNat _ hr
      · revert hr
        split <;> intro hr <;> exact absurd hr (by decide)
    · exact hofNat _ hr

theorem neg_one_ne_ofNat (n : Nat) : (-1 : Int) ≠ Int.ofNat n := by
  intro hcontra
  have h2 : (n : Int) = -1 := by exact_mod_cast hcontra.symm
  omega

theorem scanBody_ret_ne_neg_one {argv : Argv} {optStr : CStr}
    {st : GState} {r : Int} {st' : GState}
    (h : scanBody argv optStr st = some (r, st')) : r ≠ -1 := by
  obtain ⟨a, c, _, _, hD⟩ := scanBody_cases h
  intro hr
  subst hr
  rcases hD with ⟨_, hr, _⟩ | ⟨k, _, _, _, hleaf⟩ |
    ⟨k, nc, _, _, _, _, hr, _⟩
  · exact absurd hr (by decide)
  · rcases hleaf with ⟨ch, _, _, hr, _⟩ | ⟨_, e, _, _, hr, _⟩ |
      ⟨_, _, hr, _⟩
    · exact neg_one_ne_ofNat _ hr
    · exact neg_one_ne_ofNat _ hr
    · revert hr
      split <;> intro hr <;> exact absurd hr (by decide)
  · exact neg_one_ne_ofNat _ hr

/-- C7: cursor invariant preserved by every call: an EndOfOptions call
happens at offset zero and keeps the offset at zero; a scanning call
resets the offset to zero exactly when the element index moved forward
(the element was consumed), and leaves a nonzero offset only when the
same element stays current and the offset points at the next unscanned,
non NUL character of that element. -/
theorem c7_cursor_invariant {argv : Argv} {optStr : CStr} {st : GState}
    {r : Int} {st' : GState}
    (h : getopt argv optStr st = some (r, st')) :
    (r = -1 → st.argIdx = 0 ∧ st'.argIdx = 0)
    ∧ (r ≠ -1 →
      (st'.argIdx = 0 ↔ st.optind < st'.optind)
      ∧ (st'.argIdx ≠ 0 →
        st'.optind = st.optind ∧ st'.argIdx = scanIdx st + 1 ∧
        ∃ a ch, argv.get? st'.optind = some (some a) ∧
          cRead a st'.argIdx = some ch ∧ ch ≠ NUL)) := by
  rcases getopt_cases h with ⟨h0, hr, hcase⟩ | ⟨⟨a0, ha0, _⟩, hscan⟩
  · refine ⟨fun _ => ?_, fun hne => absurd hr hne⟩
    rcases hcase with ⟨hst, _⟩ | ⟨hst, _⟩ <;> subst hst <;> exact ⟨h0, h0⟩
  · have hrne := scanBody_ret_ne_neg_one hscan
    refine ⟨fun hcontra => absurd hcontra hrne, fun _ => ?_⟩
    obtain ⟨a, c, ha, hc, hD⟩ := scanBody_cases hscan
    have ha' : argv.get? st.optind = some (some a) := ha
    rcases hD with ⟨hbad, hru, hleaf⟩ | ⟨k, hcc, hk, hcol, hleaf⟩ |
      ⟨k, nc, hcc, hk, hnc, hncc, hru, hleaf⟩
    · rcases hleaf with ⟨ch, hch, hchn, hst⟩ | ⟨hch, hst⟩
      · subst hst
        exact ⟨by dsimp only; omega,
          fun _ => ⟨rfl, rfl, a, ch, ha', hch, hchn⟩⟩
      · subst hst
        exact ⟨by dsimp only; omega, fun hcontra => absurd rfl hcontra⟩
    · rcases hleaf with ⟨ch, hch, hchn, hru, hst⟩ |
        ⟨hch, e, hlt, hnext, hru, hst⟩ | ⟨hch, hge, hru, hst⟩
      · subst hst
        exact ⟨by dsimp only; omega, fun hcontra => absurd rfl hcontra⟩
      · subst hst
        exact ⟨by dsimp only; omega, fun hcontra => absurd rfl hcontra⟩
      · subst hst
        exact ⟨by dsimp only; omega, fun hcontra => absurd rfl hcontra⟩
    · rcases hleaf with ⟨ch, hch, hchn, hst⟩ | ⟨hch, hst⟩
      · subst hst
        exact ⟨by dsimp only; omega,
          fun _ => ⟨rfl, rfl, a, ch, ha', hch, hchn⟩⟩
      · subst hst
        exact ⟨by dsimp only; omega, fun hcontra => absurd rfl hcontra⟩

/-- C9: every call that scans a character overwrites optopt with that
character, successful OptionChar returns included; every EndOfOptions
call leaves optopt unchanged. -/
theorem c9_optopt_frame {argv : Argv} {optStr : CStr} {st : GState}
    {r : Int} {st' : GState}
    (h : getopt argv optStr st = some (r, st')) :
    (r = -1 → st'.optopt = st.optopt)
    ∧ (r ≠ -1 → scannedChar argv st = some st'.optopt) := by
  rcases getopt_cases h with ⟨h0, hr, hcase⟩ | ⟨⟨a0, ha0, _⟩, hscan⟩
  · refine ⟨fun _ => ?_, fun hne => absurd hr hne⟩
    rcases hcase with ⟨hst, _⟩ | ⟨hst, _⟩ <;> subst hst <;> rfl
  · have hrne := scanBody_ret_ne_neg_one hscan
    refine ⟨fun hcontra => absurd hcontra hrne, fun _ => ?_⟩
    obtain ⟨a, c, ha, hc, hD⟩ := scanBody_cases hscan
    have ha' : argv.get? st.optind = some (some a) := ha
    have hc' : cRead a (scanIdx st) = some c := hc
    have hsc : scannedChar argv st = some c := by
      unfold scannedChar
      rw [ha']
      exact hc'
    rcases hD with ⟨hbad, hru, hleaf⟩ | ⟨k, hcc, hk, hcol, hleaf⟩ |
      ⟨k, nc, hcc, hk, hnc, hncc, hru, hleaf⟩
    · rcases hleaf with ⟨ch, hch, hchn, hst⟩ | ⟨hch, hst⟩ <;> subst hst <;>
        exact hsc
    · rcases hleaf with ⟨ch, hch, hchn, hru, hst⟩ |
        ⟨hch, e, hlt, hnext, hru, hst⟩ | ⟨hch, hge, hru, hst⟩ <;>
        subst hst <;> exact hsc
    · rcases hleaf with ⟨ch, hch, hchn, hst⟩ | ⟨hch, hst⟩ <;> subst hst <;>
        exact hsc

/-- C10: optarg is reset to null at the start of every call: an
EndOfOptions call leaves it null, and a call can leave it non null only
as a successful return of an option declared argument taking in the
option string, the pointer landing inside the original argument vector. -/
theorem c10_optarg_null {argv : Argv} {optStr : CStr} {st : GState}
    {r : Int} {st' : GState}
    (h : getopt argv optStr st = some (r, st')) :
    (r = -1 → st'.optarg = none)
    ∧ (st'.optarg ≠ none →
      ∃ c k, scannedChar argv st = some c ∧ c ≠ ':' ∧
        strchrIdx optStr c = some k ∧ cRead optStr (k + 1) = some ':' ∧
        r = Int.ofNat c.toNat ∧
        ∃ i off s, st'.optarg = some (i, off) ∧
          argv.get? i = some (some s) ∧ off ≤ s.length ∧
          derefArg argv st'.optarg = some (cstr (s.drop off))) := by
  rcases getopt_cases h with ⟨h0, hr, hcase⟩ | ⟨⟨a0, ha0, _⟩, hscan⟩
  · refine ⟨fun _ => ?_, fun hnn => ?_⟩
    · rcases hcase with ⟨hst, _⟩ | ⟨hst, _⟩ <;> subst hst <;> rfl
    · rcases hcase with ⟨hst, _⟩ | ⟨hst, _⟩ <;> subst hst <;>
        exact absurd rfl hnn
  · have hrne := scanBody_ret_ne_neg_one hscan
    refine ⟨fun hcontra => absurd hcontra hrne, fun hnn => ?_⟩
    obtain ⟨a, c, ha, hc, hD⟩ := scanBody_cases hscan
    have ha' : argv.get? st.optind = some (some a) := ha
    have hc' : cRead a (scanIdx st) = some c := hc
    have ha2 : argv[st.optind]? = some (some a) := by
      rw [← List.get?_eq_getElem?]
      exact ha'
    have hsc : scannedChar argv st = some c := by
      unfold scannedChar
      rw [ha']
      exact hc'
    rcases hD with ⟨hbad, hru, hleaf⟩ | ⟨k, hcc, hk, hcol, hleaf⟩ |
      ⟨k, nc, hcc, hk, hnc, hncc, hru, hleaf⟩
    · rcases hleaf with ⟨ch, hch, hchn, hst⟩ | ⟨hch, hst⟩ <;> subst hst <;>
        exact absurd rfl hnn
    · rcases hleaf with ⟨ch, hch, hchn, hru, hst⟩ |
        ⟨hch, e, hlt, hnext, hru, hst⟩ | ⟨hch, hge, hru, hst⟩
      · subst hst
        refine ⟨c, k, hsc, hcc, hk, hcol, hru, st.optind, scanIdx st + 1,
          a, rfl, ha', ?_, ?_⟩
        · exact Nat.le_of_lt (lt_of_cRead_ne_NUL hch hchn)
        · simp [derefArg, ha2]
      · subst hst
        cases e with
        | none => exact absurd rfl hnn
        | some b =>
          have hb' : argv.get? (st.optind + 1) = some (some b) := hnext
          have hb2 : argv[st.optind + 1]? = some (some b) := by
            rw [← List.get?_eq_getElem?]
            exact hb'
          refine ⟨c, k, hsc, hcc, hk, hcol, hru, st.optind + 1, 0, b,
            rfl, hb', Nat.zero_le _, ?_⟩
          simp [derefArg, hb2]
      · subst hst
        exact absurd rfl hnn
    · rcases hleaf with ⟨ch, hch, hchn, hst⟩ | ⟨hch, hst⟩ <;> subst hst <;>
        exact absurd rfl hnn

theorem get?_some_lt {α : Type} {l : List α} {n : Nat} {x : α}
    (h : l.get? n = some x) : n < l.length := by
  rcases List.get?_eq_some.mp h with ⟨hh, _⟩
  exact hh

theorem entry_char_ne_NUL {a : CStr}
    (hdash : cRead a 0 = some '-') (h1 : cstr a ≠ ['-']) :
    ∃ c, cRead a 1 = some c ∧ c ≠ NUL := by
  cases a with
  | nil => exact absurd hdash (by decide)
  | cons y ys =>
    have hy : y = '-' := by
      have h2 : some y = some '-' := hdash
      simpa using h2
    subst hy
    have h2 : cRead ('-' :: ys) 1 = cRead ys 0 := rfl
    obtain ⟨c, hc⟩ := cRead_exists_of_le (Nat.zero_le ys.length)
    refine ⟨c, by rw [h2]; exact hc, ?_⟩
    intro hcn
    subst hcn
    apply h1
    cases ys with
    | nil => decide
    | cons z t =>
      have hz : z = NUL := by
        have h3 : some z = some NUL := hc
        simpa using h3
      subst hz
      simp [cstr, List.takeWhile]
      decide

theorem scanBody_ne_none {argv : Argv} {optStr : CStr} {st : GState}
    {a : CStr} {c : Char}
    (ha : argv.get? st.optind = some (some a))
    (hc : cRead a st.argIdx = some c) (hcn : c ≠ NUL) :
    scanBody argv optStr st ≠ none := by
  obtain ⟨ch, hch⟩ := cRead_succ_exists hc hcn
  by_cases hbad : c = ':' ∨ strchrIdx optStr c = none
  · by_cases hn : ch = NUL
    · subst hn
      rw [scanBody_unknown_last ha hc hbad hch]
      simp
    · rw [scanBody_unknown_mid ha hc hbad hch hn]
      simp
  · push_neg at hbad
    obtain ⟨hcc, hcpn⟩ := hbad
    obtain ⟨k, hk⟩ := Option.ne_none_iff_exists'.mp hcpn
    have hklt : k < optStr.length := strchrIdx_lt hk hcn
    obtain ⟨nc, hnc⟩ := cRead_exists_of_le hklt
    by_cases hncc : nc = ':'
    · subst hncc
      by_cases hn : ch = NUL
      · subst hn
        by_cases hlt : st.optind + 1 < argv.length
        · obtain ⟨e, hnext⟩ : ∃ e, argv.get? (st.optind + 1) = some e :=
            ⟨_, List.get?_eq_get hlt⟩
          rw [scanBody_next_arg ha hc hcc hk hnc hch hnext]
          simp
        · rw [scanBody_missing ha hc hcc hk hnc hch (Nat.not_lt.mp hlt)]
          simp
      · rw [scanBody_glued ha hc hcc hk hnc hch hn]
        simp
    · by_cases hn : ch = NUL
      · subst hn
        rw [scanBody_noarg_last ha hc hcc hk hnc hncc hch]
        simp
      · rw [scanBody_noarg_mid ha hc hcc hk hnc hncc hch hn]
        simp

theorem getopt_ne_none_of_inv {argv : Argv} {optStr : CStr} {st : GState}
    (hinv : MidTokenInv argv st) : getopt argv optStr st ≠ none := by
  by_cases h0 : st.argIdx = 0
  · by_cases hge : argv.length ≤ st.optind
    · rw [getopt_end_past h0 hge]
      simp
    · push_neg at hge
      obtain ⟨e, he⟩ : ∃ e, argv.get? st.optind = some e :=
        ⟨_, List.get?_eq_get hge⟩
      cases e with
      | none =>
        rw [getopt_end_null h0 he]
        simp
      | some a =>
        by_cases hnd : cRead a 0 ≠ some '-'
        · rw [getopt_end_nodash h0 he hnd]
          simp
        · push_neg at hnd
          by_cases h1 : cstr a = ['-']
          · rw [getopt_end_dash h0 he h1]
            simp
          · by_cases h2 : cstr a = ['-', '-']
            · rw [getopt_end_ddash h0 he h2]
              simp
            · rw [@getopt_eq_scanBody argv optStr st a he
                (fun _ => ⟨hnd, h1, h2⟩)]
              obtain ⟨c, hc1, hcn⟩ := entry_char_ne_NUL hnd h1
              have hs : scanIdx st = 1 := by simp [scanIdx, h0]
              exact scanBody_ne_none he
                (show cRead a (scanIdx st) = some c from by
                  rw [hs]; exact hc1) hcn
  · obtain ⟨hlt, a, ha, hdash, ch, hch, hchn⟩ := hinv h0
    rw [@getopt_eq_scanBody argv optStr st a ha (fun hc0 => absurd hc0 h0)]
    have hs : scanIdx st = st.argIdx := by simp [scanIdx, h0]
    exact scanBody_ne_none ha
      (show cRead a (scanIdx st) = some ch from by rw [hs]; exact hch) hchn

theorem midTokenInv_step {argv : Argv} {optStr : CStr} {st : GState}
    {r : Int} {st' : GState}
    (hinv : MidTokenInv argv st)
    (h : getopt argv optStr st = some (r, st')) :
    MidTokenInv argv st' := by
  intro hne
  rcases getopt_cases h with ⟨h0, hr, hcase⟩ | ⟨⟨a0, ha0, hentry⟩, hscan⟩
  · rcases hcase with ⟨hst, _⟩ | ⟨hst, _⟩ <;> subst hst <;>
      exact absurd h0 hne
  · obtain ⟨a, c, ha, hc, hD⟩ := scanBody_cases hscan
    have ha' : argv.get? st.optind = some (some a) := ha
    have haa : a = a0 := by
      have h2 := ha'.symm.trans ha0
      simpa using h2
    have hdash : cRead a 0 = some '-' := by
      by_cases h0 : st.argIdx = 0
      · exact haa ▸ (hentry h0).1
      · obtain ⟨_, a1, ha1, hd1, _⟩ := hinv h0
        have h2 : a1 = a := by
          have h3 := ha1.symm.trans ha'
          simpa using h3
        exact h2 ▸ hd1
    have hlt : st.optind < argv.length := get?_some_lt ha'
    rcases hD with ⟨hbad, hru, hleaf⟩ | ⟨k, hcc, hk, hcol, hleaf⟩ |
      ⟨k, nc, hcc, hk, hnc, hncc, hru, hleaf⟩
    · rcases hleaf with ⟨ch, hch, hchn, hst⟩ | ⟨_, hst⟩
      · subst hst
        exact ⟨hlt, a, ha', hdash, ch, hch, hchn⟩
      · subst hst
        exact absurd rfl hne
    · rcases hleaf with ⟨ch, hch, hchn, hru, hst⟩ |
        ⟨hch, e, helt, hnext, hru, hst⟩ | ⟨hch, hge, hru, hst⟩ <;>
        subst hst <;> exact absurd rfl hne
    · rcases hleaf with ⟨ch, hch, hchn, hst⟩ | ⟨_, hst⟩
      · subst hst
        exact ⟨hlt, a, ha', hdash, ch, hch, hchn⟩
      · subst hst
        exact absurd rfl hne

/-- C8: in a scan started with element index 1 and offset 0, every
reachable state that resumes mid token keeps the element index below
argc, a non null current element beginning with '-', and the offset on a
non NUL character of that element; consequently the unguarded mid token
reads of argv[optind][arg_idx] stay in bounds and the out of bounds
result of the model is unreachable. -/
theorem c8_midtoken_safety {argv : Argv} {optStr : CStr} {st : GState}
    (h : Reaches argv optStr st) :
    MidTokenInv argv st ∧ getopt argv optStr st ≠ none := by
  have hinv : MidTokenInv argv st := by
    induction h with
    | init => intro hne; exact absurd rfl hne
    | step hreach hstep ih => exact midTokenInv_step ih hstep
  exact ⟨hinv, getopt_ne_none_of_inv hinv⟩

/-! Witnesses: the claim theorems instantiated at concrete inputs. -/

theorem c1_witness :
    (getopt [some ['p'], some ['-', 'f'], some ['v']] ['f', ':'] initState =
      some (Int.ofNat (Char.toNat 'f'),
        { optind := 3, argIdx := 0, optopt := 'f', optarg := some (2, 0) })
    ∧ derefArg [some ['p'], some ['-', 'f'], some ['v']] (some (2, 0)) =
      some ['v'])
    ∧ (getopt [some ['p'], some ['-', 'f', 'v']] ['f', ':'] initState =
      some (Int.ofNat (Char.toNat 'f'),
        { optind := 2, argIdx := 0, optopt := 'f', optarg := some (1, 2) })
    ∧ derefArg [some ['p'], some ['-', 'f', 'v']] (some (1, 2)) =
      some ['v']) := by
  have h1 := (@c1_argument_resolution [some ['p'], some ['-', 'f'], some ['v']]
    ['f', ':'] initState ['-', 'f'] 'f' 0 (by decide) (by decide) (by decide)
    (by decide) (by decide) (by decide)).2 (by decide) ['v'] (by decide)
  have h2 := (@c1_argument_resolution [some ['p'], some ['-', 'f', 'v']]
    ['f', ':'] initState ['-', 'f', 'v'] 'f' 0 (by decide) (by decide)
    (by decide) (by decide) (by decide) (by decide)).1 'v' (by decide)
    (by decide)
  exact ⟨h1, h2⟩

theorem c2_witness :
    getopt [some ['p'], some ['-', 'f']] ['f', ':'] initState =
      some (optionUnknown,
        { optind := 2, argIdx := 0, optopt := 'f', optarg := none })
    ∧ getopt [some ['p'], some ['-', 'f']] [':', 'f', ':'] initState =
      some (optionMissing,
        { optind := 2, argIdx := 0, optopt := 'f', optarg := none }) := by
  have h1 := @c2_missing_argument [some ['p'], some ['-', 'f']] ['f', ':']
    initState ['-', 'f'] 'f' 0 (by decide) (by decide) (by decide)
    (by decide) (by decide) (by decide) (by decide) (by decide)
  have h2 := @c2_missing_argument [some ['p'], some ['-', 'f']]
    [':', 'f', ':'] initState ['-', 'f'] 'f' 1 (by decide) (by decide)
    (by decide) (by decide) (by decide) (by decide) (by decide) (by decide)
  exact ⟨h1, h2⟩

theorem c3_witness :
    getopt [some ['p'], none] ['h'] initState = some (-1, initState) :=
  (@c3_end_of_options [some ['p'], none] ['h'] initState rfl).2.1 (by decide)

theorem c4_witness :
    getopt [some ['p'], some ['-', 'x']] ['h'] initState =
      some (optionUnknown,
        { optind := 2, argIdx := 0, optopt := 'x', optarg := none }) :=
  (@c4_unknown_option [some ['p'], some ['-', 'x']] ['h'] initState
    ['-', 'x'] 'x' (by decide) (by decide) (by decide) (by decide)).2
    (by decide)

theorem c5_witness :
    getopt [some ['p'], some ['-', 'a', 'b', 'c']] ['a', 'b', 'c']
      initState =
      some (Int.ofNat (Char.toNat 'a'), GState.mk 1 2 'a' none)
    ∧ getopt [some ['p'], some ['-', 'a', 'b', 'c']] ['a', 'b', 'c']
        (GState.mk 1 2 'a' none) =
      some (Int.ofNat (Char.toNat 'b'), GState.mk 1 3 'b' none)
    ∧ getopt [some ['p'], some ['-', 'a', 'b', 'c']] ['a', 'b', 'c']
        (GState.mk 1 3 'b' none) =
      some (Int.ofNat (Char.toNat 'c'), GState.mk 2 0 'c' none)
    ∧ (GState.mk 2 0 'f' (some (1, 2))).argIdx = 0 := by
  have h1 := (@c5_packed_left_to_right
    [some ['p'], some ['-', 'a', 'b', 'c']] ['a', 'b', 'c'] initState
    ['-', 'a', 'b', 'c'] 'a' (by decide) (by decide) (by decide)).1
    0 'b' 'b' (by decide) (by decide) (by decide) (by decide) (by decide)
    (by decide)
  have h2 := (@c5_packed_left_to_right
    [some ['p'], some ['-', 'a', 'b', 'c']] ['a', 'b', 'c']
    (GState.mk 1 2 'a' none) ['-', 'a', 'b', 'c'] 'b' (by decide)
    (by decide) (by decide)).1 1 'c' 'c' (by decide) (by decide)
    (by decide) (by decide) (by decide) (by decide)
  have h3 := (@c5_packed_left_to_right
    [some ['p'], some ['-', 'a', 'b', 'c']] ['a', 'b', 'c']
    (GState.mk 1 3 'b' none) ['-', 'a', 'b', 'c'] 'c' (by decide)
    (by decide) (by decide)).2.1 2 NUL (by decide) (by decide) (by decide)
    (by decide) (by decide)
  have h4 := (@c5_packed_left_to_right
    [some ['p'], some ['-', 'f', 'v']] ['f', ':'] initState
    ['-', 'f', 'v'] 'f' (by decide) (by decide) (by decide)).2.2
    0 (by decide) (by decide) (by decide) (Int.ofNat (Char.toNat 'f'))
    (GState.mk 2 0 'f' (some (1, 2))) (by decide)
  exact ⟨h1, h2, h3, h4⟩

theorem c6_witness :
    getopt [some ['p'], some ['x']] ['h'] initState =
      some (-1, initState) :=
  @c6_end_idempotent [some ['p'], some ['x']] ['h'] initState initState
    (by decide) rfl

theorem c7_witness :
    (GState.mk 1 2 'a' none).optind = initState.optind ∧
    (GState.mk 1 2 'a' none).argIdx = scanIdx initState + 1 ∧
    ∃ a ch,
      List.get? [some ['p'], some ['-', 'a', 'b']]
        (GState.mk 1 2 'a' none).optind = some (some a) ∧
      cRead a (GState.mk 1 2 'a' none).argIdx = some ch ∧ ch ≠ NUL :=
  ((@c7_cursor_invariant [some ['p'], some ['-', 'a', 'b']] ['a', 'b']
      initState (Int.ofNat (Char.toNat 'a')) (GState.mk 1 2 'a' none)
      (by decide)).2 (by decide)).2 (by decide)

theorem c8_witness :
    MidTokenInv [some ['p'], some ['-', 'a', 'b']]
      (GState.mk 1 2 'a' none) ∧
    getopt [some ['p'], some ['-', 'a', 'b']] ['a', 'b']
      (GState.mk 1 2 'a' none) ≠ none :=
  @c8_midtoken_safety [some ['p'], some ['-', 'a', 'b']] ['a', 'b']
    (GState.mk 1 2 'a' none)
    (Reaches.step (r := Int.ofNat (Char.toNat 'a')) Reaches.init
      (by decide))

theorem c9_witness :
    scannedChar [some ['p'], some ['-', 'a', 'b']] initState =
      some (GState.mk 1 2 'a' none).optopt :=
  (@c9_optopt_frame [some ['p'], some ['-', 'a', 'b']] ['a', 'b']
    initState (Int.ofNat (Char.toNat 'a')) (GState.mk 1 2 'a' none)
    (by decide)).2 (by decide)

theorem c10_witness :
    ∃ c k,
      scannedChar [some ['p'], some ['-', 'f', 'v']] initState = some c ∧
      c ≠ ':' ∧ strchrIdx ['f', ':'] c = some k ∧
      cRead ['f', ':'] (k + 1) = some ':' ∧
      Int.ofNat (Char.toNat 'f') = Int.ofNat c.toNat ∧
      ∃ i off s,
        (GState.mk 2 0 'f' (some (1, 2))).optarg = some (i, off) ∧
        List.get? [some ['p'], some ['-', 'f', 'v']] i = some (some s) ∧
        off ≤ s.length ∧
        derefArg [some ['p'], some ['-', 'f', 'v']]
          (GState.mk 2 0 'f' (some (1, 2))).optarg =
          some (cstr (s.drop off)) :=
  (@c10_optarg_null [some ['p'], some ['-', 'f', 'v']] ['f', ':']
    initState (Int.ofNat (Char.toNat 'f')) (GState.mk 2 0 'f' (some (1, 2)))
    (by decide)).2 (by decide)
